import Mathlib

/-!
Shallow embedding of the immix allocator of rlox
(`src/immix/linemap.rs`, `src/immix/bump_alloc.rs`, `src/immix/blocklist.rs`,
`src/immix/memory.rs`, `src/immix/policy.rs`).

Modelling conventions:
  * the `bit_vec::BitVec` of used lines is a `List Bool` (`true` = used);
  * machine integers (`usize`) are `Nat`.  The code is exercised by its own
    test suite in debug mode, so a `usize` subtraction that would underflow
    is a panic, and a failing `assert!` is a panic; both are modelled by an
    explicit `Panic` error in an `Except Panic` result.  An out-of-bounds
    `BitVec::set` in a mutating loop also panics and is modelled the same
    way; out-of-bounds reads occur only in positions the theorems never
    exercise and read a `getD` default;
  * raw memory is abstracted to a base address: the payload bytes of a
    `Block` are never inspected by the allocator, so only the address and
    the size matter.  The OS allocator behind `Block::new` is an oracle
    parameter `sysAlloc : Nat → Nat` returning the address (0 = null).
-/

namespace Rlox

set_option maxRecDepth 16384

/-- Kinds of runtime panic: a failed `assert!`, a debug-mode `usize`
underflow, an out-of-bounds `BitVec::set`, and an explicit `panic` or a
failed `expect`. -/
inductive Panic where
  | assertFailed
  | arithOverflow
  | indexOOB
  | panicked
deriving DecidableEq, Repr

deriving instance DecidableEq for Except

/-! ## Definitions from `src/immix/linemap.rs` -/

/-- The `LineMap(BitVec)` newtype: marks used lines within a block. -/
structure LineMap where
  bits : List Bool
deriving DecidableEq, Repr

/-- Model of `LineMap::new(size)`: all lines unused. -/
def LineMap.new (size : Nat) : LineMap :=
  ⟨List.replicate size false⟩

/-- Model of `LineMap::len`. -/
def LineMap.len (m : LineMap) : Nat :=
  m.bits.length

/-- Model of `LineMap::is_used(line)` (`self.0[line]`; in range at every
use site of the claims). -/
def LineMap.is_used (m : LineMap) (line : Nat) : Bool :=
  m.bits.getD line false

/-- Model of `LineMap::set_used(line)` (`self.0.set(line, true)`; every use
reached through a range operation is guarded to be in range). -/
def LineMap.set_used (m : LineMap) (line : Nat) : LineMap :=
  ⟨m.bits.set line true⟩

/-- Model of `LineMap::set_unused(line)`. -/
def LineMap.set_unused (m : LineMap) (line : Nat) : LineMap :=
  ⟨m.bits.set line false⟩

/-- The loop `for line in start..end { self.set(line, v) }`. -/
def setRangeLoop (bits : List Bool) (s n : Nat) (v : Bool) : List Bool :=
  (List.range' s n).foldl (fun b j => b.set j v) bits

/-- Model of `LineMap::set_range_used(start, end)`: asserts every line of
the range is currently unused, then sets each one used.  In debug mode
`end - start` underflows (panics) when `end < start`, and `BitVec::set`
panics when the loop would leave the map. -/
def LineMap.set_range_used (m : LineMap) (s e : Nat) : Except Panic LineMap :=
  if e < s then .error .arithOverflow
  else if ((m.bits.drop s).take (e - s)).all (fun x => !x) = false then
    .error .assertFailed
  else if s < e ∧ m.bits.length < e then .error .indexOOB
  else .ok ⟨setRangeLoop m.bits s (e - s) true⟩

/-- Model of `LineMap::set_range_unused(start, end)`: the mirror of
`set_range_used`, asserting every line of the range is currently used. -/
def LineMap.set_range_unused (m : LineMap) (s e : Nat) : Except Panic LineMap :=
  if e < s then .error .arithOverflow
  else if ((m.bits.drop s).take (e - s)).all (fun x => x) = false then
    .error .assertFailed
  else if s < e ∧ m.bits.length < e then .error .indexOOB
  else .ok ⟨setRangeLoop m.bits s (e - s) false⟩

/-- Model of `LineMap::entire_block_unused` (`self.0.none()`). -/
def LineMap.entire_block_unused (m : LineMap) : Bool :=
  m.bits.all (fun x => !x)

/-- Model of `LineMap::entire_block_used` (`self.0.all()`). -/
def LineMap.entire_block_used (m : LineMap) : Bool :=
  m.bits.all (fun x => x)

/-- Model of `LineMap::find_next_used(line)`:
`line + self.0.iter().skip(line).take_while(|x| !x).count()`. -/
def LineMap.find_next_used (m : LineMap) (line : Nat) : Nat :=
  line + ((m.bits.drop line).takeWhile (fun x => !x)).length

/-- Model of `LineMap::find_next_unused(line)`:
`line + self.0.iter().skip(line).take_while(|x| *x).count()`. -/
def LineMap.find_next_unused (m : LineMap) (line : Nat) : Nat :=
  line + ((m.bits.drop line).takeWhile (fun x => x)).length

/-! ## Definitions from `src/immix/memory.rs` -/

/-- The `AllocError` enum. -/
inductive AllocError where
  | OutOfMemory
  | BadAlignment
deriving DecidableEq, Repr

/-- A `Block`: an abstract owned region, identified by the base address and
the size. -/
structure Block where
  ptr : Nat
  size : Nat
deriving DecidableEq, Repr

/-- Model of `usize::is_power_of_two` (true exactly when the value is a
power of two). -/
def is_power_of_two (n : Nat) : Bool :=
  n != 0 && n == 2 ^ Nat.log2 n

/-- Model of `internal::alloc_block(size)`: non-power-of-two sizes are
rejected before any allocation attempt; otherwise the OS allocator oracle
`sysAlloc` is consulted (its result is the address, 0 standing for the
null return that becomes `OutOfMemory`). -/
def alloc_block (sysAlloc : Nat → Nat) (size : Nat) : Except AllocError Block :=
  if ¬ is_power_of_two size then .error .BadAlignment
  else if sysAlloc size ≠ 0 then .ok ⟨sysAlloc size, size⟩
  else .error .OutOfMemory

/-- Model of `Block::new(size)`, which forwards to `internal::alloc_block`. -/
def Block.new (sysAlloc : Nat → Nat) (size : Nat) : Except AllocError Block :=
  alloc_block sysAlloc size

/-! ## Definitions from `src/immix/bump_alloc.rs` -/

/-- The `ManagedPtr { inner, size }` pair, with the raw pointer as an
address. -/
structure ManagedPtr where
  inner : Nat
  size : Nat
deriving DecidableEq, Repr

/-- The `BumpBlock { cursor, limit, mem, used_lines }` state; `mem` is kept
as its base address and byte size. -/
structure BumpBlock where
  cursor : Nat
  limit : Nat
  memBase : Nat
  memSize : Nat
  used_lines : LineMap
deriving DecidableEq, Repr

/-- Model of `BumpBlock::new::<A>()` for a policy with `LINES_PER_BLOCK`
lines and `BLOCK_SIZE_BYTES` bytes, the fresh `Block` sitting at address
`base` (success of the block allocation is assumed; a failure propagates
the `AllocError` in the code and reaches none of the claims). -/
def BumpBlock.new (linesPerBlock blockSizeBytes base : Nat) : BumpBlock :=
  { cursor := 0
    limit := linesPerBlock
    memBase := base
    memSize := blockSizeBytes
    used_lines := LineMap.new linesPerBlock }

/-- Model of `BumpBlock::inner_dealloc(ptr)`: exactly
`self.used_lines.set_range_unused(ptr_addr - mem_base, ptr.size)` — the
second argument passed is the SIZE although `set_range_unused` expects an
END index. -/
def BumpBlock.inner_dealloc (b : BumpBlock) (p : ManagedPtr) :
    Except Panic BumpBlock :=
  match b.used_lines.set_range_unused (p.inner - b.memBase) p.size with
  | .error e => .error e
  | .ok m => .ok { b with used_lines := m }

/-- Model of `BumpBlock::find_first_hole`, including its assert that an
unused line exists whenever the block is not entirely used. -/
def BumpBlock.find_first_hole (b : BumpBlock) :
    Except Panic (Option (Nat × Nat)) :=
  if b.used_lines.entire_block_used then .ok none
  else if b.used_lines.find_next_unused 0 = b.used_lines.len then
    .error .assertFailed
  else
    .ok (some (b.used_lines.find_next_unused 0,
      b.used_lines.find_next_used (b.used_lines.find_next_unused 0)))

/-- The part of `BumpBlock::inner_alloc` after the `cursor == limit` hole
refresh: the `assert!(cursor < limit)`, the span check against
`find_next_used`, and the allocation proper. -/
def BumpBlock.inner_alloc_core (b : BumpBlock) (bytes : Nat) :
    Except Panic (Option ManagedPtr × BumpBlock) :=
  if ¬ b.cursor < b.limit then .error .assertFailed
  else if b.used_lines.find_next_used b.cursor - b.cursor ≥ bytes then
    match b.used_lines.set_range_used b.cursor (b.cursor + bytes) with
    | .error e => .error e
    | .ok m =>
      .ok (some ⟨b.memBase + b.cursor, bytes⟩,
        { b with used_lines := m, cursor := b.cursor + bytes })
  else .ok (none, b)

/-- Model of `BumpBlock::inner_alloc(bytes)`: on `cursor == limit` first
refresh `cursor`/`limit` from `find_first_hole` (returning `None` when no
hole exists), then run the core allocation. -/
def BumpBlock.inner_alloc (b : BumpBlock) (bytes : Nat) :
    Except Panic (Option ManagedPtr × BumpBlock) :=
  if b.cursor = b.limit then
    match b.find_first_hole with
    | .error e => .error e
    | .ok none => .ok (none, b)
    | .ok (some (hole_begin, hole_end_exclusive)) =>
      BumpBlock.inner_alloc_core
        { b with cursor := hole_begin, limit := hole_end_exclusive } bytes
  else BumpBlock.inner_alloc_core b bytes

/-- Model of `BumpBlock::contains(ptr)`. -/
def BumpBlock.contains (b : BumpBlock) (p : ManagedPtr) : Bool :=
  b.memBase ≤ p.inner && p.inner < b.memBase + b.memSize

/-! ## Definitions from `src/immix/blocklist.rs` and `src/immix/policy.rs` -/

/-- The `BlockList<A>` state: its blocks plus the policy constants of `A`.
Fresh blocks are laid out at consecutive non-overlapping addresses
`count * BLOCK_SIZE_BYTES`. -/
structure BlockList where
  linesPerBlock : Nat
  blockSizeBytes : Nat
  blocks : List BumpBlock
deriving DecidableEq, Repr

/-- Model of `BlockList::new()` for a given policy. -/
def BlockList.mk_empty (linesPerBlock blockSizeBytes : Nat) : BlockList :=
  ⟨linesPerBlock, blockSizeBytes, []⟩

/-- The `for block in self.blocks.iter_mut()` loop of `BlockList::alloc`:
a failed `inner_alloc` may still have refreshed that block's cursor and
limit, so the traversed blocks are threaded through. -/
def allocLoop (bytes : Nat) :
    List BumpBlock → Except Panic (Option ManagedPtr × List BumpBlock)
  | [] => .ok (none, [])
  | b :: rest =>
    match b.inner_alloc bytes with
    | .error e => .error e
    | .ok (some p, b') => .ok (some p, b' :: rest)
    | .ok (none, b') =>
      match allocLoop bytes rest with
      | .error e => .error e
      | .ok (r, rest') => .ok (r, b' :: rest')

/-- Model of `BlockList::alloc(bytes)`: first fit over the existing blocks
in list order, else push one fresh block and retry once there; the
`.expect` failure on the fresh block is the "Object too large" panic. -/
def BlockList.alloc (st : BlockList) (bytes : Nat) :
    Except Panic (ManagedPtr × BlockList) :=
  match allocLoop bytes st.blocks with
  | .error e => .error e
  | .ok (some p, blocks') => .ok (p, { st with blocks := blocks' })
  | .ok (none, blocks') =>
    let nb := BumpBlock.new st.linesPerBlock st.blockSizeBytes
      (blocks'.length * st.blockSizeBytes)
    match nb.inner_alloc bytes with
    | .error e => .error e
    | .ok (some p, nb') => .ok (p, { st with blocks := blocks' ++ [nb'] })
    | .ok (none, _) => .error .panicked

/-- The loop of `BlockList::dealloc`: `inner_dealloc` on the first block
that `contains` the pointer; falling off the end is the fatal
"ManagedPtr is not owned by the BlockList!" panic. -/
def deallocLoop (p : ManagedPtr) :
    List BumpBlock → Except Panic (List BumpBlock)
  | [] => .error .panicked
  | b :: rest =>
    if b.contains p then
      match b.inner_dealloc p with
      | .error e => .error e
      | .ok b' => .ok (b' :: rest)
    else
      match deallocLoop p rest with
      | .error e => .error e
      | .ok rest' => .ok (b :: rest')

/-- Model of `BlockList::dealloc(ptr)`. -/
def BlockList.dealloc (st : BlockList) (p : ManagedPtr) :
    Except Panic BlockList :=
  match deallocLoop p st.blocks with
  | .error e => .error e
  | .ok blocks' => .ok { st with blocks := blocks' }

/-- Repeated one-line allocation, mirroring the `for _ in 0..n` loops of
the `alloc_dealloc_blocks` test scenario quoted by the spec. -/
def allocRepeat : Nat → BlockList → Except Panic (List ManagedPtr × BlockList)
  | 0, st => .ok ([], st)
  | n + 1, st =>
    match st.alloc 1 with
    | .error e => .error e
    | .ok (p, st') =>
      match allocRepeat n st' with
      | .error e => .error e
      | .ok (ps, st'') => .ok (p :: ps, st'')

/-! ## Concrete states used by the claim theorems -/

/-- Fallback block for `getD` indexing in frame statements. -/
def dfltBlock : BumpBlock :=
  ⟨0, 0, 0, 0, ⟨[]⟩⟩

/-- An OS allocator oracle that always hands out address 1. -/
def oneAlloc : Nat → Nat :=
  fun _ => 1

/-- The 128-line map of the linemap tests: lines 0, 10, ..., 120 used. -/
def exampleMap : LineMap :=
  (List.range 13).foldl (fun m i => m.set_used (10 * i)) (LineMap.new 128)

/-- The example map with lines 126 and 127 additionally used. -/
def exampleMap2 : LineMap :=
  (exampleMap.set_used 126).set_used 127

/-- State after allocating one line from a fresh 4-line block at 1000. -/
def c1b1 : BumpBlock :=
  ⟨1, 4, 1000, 256, ⟨[true, false, false, false]⟩⟩

/-- State after a second one-line allocation. -/
def c1b2 : BumpBlock :=
  ⟨2, 4, 1000, 256, ⟨[true, true, false, false]⟩⟩

/-- State after `inner_dealloc` of the second pointer: line 1 is still
used because the empty range `[1, 1)` was cleared. -/
def c1b3 : BumpBlock :=
  ⟨2, 4, 1000, 256, ⟨[true, true, false, false]⟩⟩

/-- State after allocating two lines from a fresh 4-line block at 2000. -/
def c2b1 : BumpBlock :=
  ⟨2, 4, 2000, 256, ⟨[true, true, false, false]⟩⟩

/-- State after a second two-line allocation. -/
def c2b2 : BumpBlock :=
  ⟨4, 4, 2000, 256, ⟨[true, true, true, true]⟩⟩

/-- State after `inner_dealloc` of the second pointer: lines 2 and 3 are
still used because the empty range `[2, 2)` was cleared. -/
def c2b3 : BumpBlock :=
  ⟨4, 4, 2000, 256, ⟨[true, true, true, true]⟩⟩

/-- 8-line block after allocating 3 lines. -/
def c3s1 : BumpBlock :=
  ⟨3, 8, 0, 512, ⟨[true, true, true, false, false, false, false, false]⟩⟩

/-- Then after allocating 5 more lines (block full). -/
def c3s2 : BumpBlock :=
  ⟨8, 8, 0, 512, ⟨[true, true, true, true, true, true, true, true]⟩⟩

/-- Then after deallocating the first pointer (offset 0, so the buggy end
argument coincides with the intended one). -/
def c3s3 : BumpBlock :=
  ⟨8, 8, 0, 512, ⟨[false, false, false, true, true, true, true, true]⟩⟩

/-- Then after a one-line allocation that refreshed the hole to `[0, 3)`. -/
def c3s4 : BumpBlock :=
  ⟨1, 3, 0, 512, ⟨[true, false, false, true, true, true, true, true]⟩⟩

/-- Then after deallocating the second pointer (offset 3, size 5): the
code clears `[3, 5)`, which frees the line at the current limit. -/
def c3s5 : BumpBlock :=
  ⟨1, 3, 0, 512, ⟨[true, false, false, false, false, true, true, true]⟩⟩

/-- Then after allocating 4 lines: the cursor lands at 5, past the limit 3. -/
def c3s6 : BumpBlock :=
  ⟨5, 3, 0, 512, ⟨[true, true, true, true, true, true, true, true]⟩⟩

/-- 4-line block filled by a single 4-line allocation. -/
def c4b1 : BumpBlock :=
  ⟨4, 4, 0, 256, ⟨[true, true, true, true]⟩⟩

/-- Then after deallocating that pointer: all lines unused, but the bump
cursor still sits at the exhausted limit. -/
def c4b2 : BumpBlock :=
  ⟨4, 4, 0, 256, ⟨[false, false, false, false]⟩⟩

/-- State returned by the failing oversized allocation from `c4b2`: the
request fails but the hole refresh moved the cursor to 0. -/
def c4b3 : BumpBlock :=
  ⟨0, 4, 0, 256, ⟨[false, false, false, false]⟩⟩

/-- The ten pointers handed out by ten one-line `BlockList` allocations
under the test policy (4 lines of 64 bytes per 256-byte block). -/
def c5ptrs : List ManagedPtr :=
  [⟨0, 1⟩, ⟨1, 1⟩, ⟨2, 1⟩, ⟨3, 1⟩,
   ⟨256, 1⟩, ⟨257, 1⟩, ⟨258, 1⟩, ⟨259, 1⟩,
   ⟨512, 1⟩, ⟨513, 1⟩]

/-- The block list after those ten allocations: three blocks, the third
half full. -/
def c5st : BlockList :=
  ⟨4, 256,
   [⟨4, 4, 0, 256, ⟨[true, true, true, true]⟩⟩,
    ⟨4, 4, 256, 256, ⟨[true, true, true, true]⟩⟩,
    ⟨2, 4, 512, 256, ⟨[true, true, false, false]⟩⟩]⟩

/-- After deallocating the first pointer (offset 0 works by accident). -/
def c5st1 : BlockList :=
  ⟨4, 256,
   [⟨4, 4, 0, 256, ⟨[false, true, true, true]⟩⟩,
    ⟨4, 4, 256, 256, ⟨[true, true, true, true]⟩⟩,
    ⟨2, 4, 512, 256, ⟨[true, true, false, false]⟩⟩]⟩

/-- After deallocating the second pointer: nothing changes, the cleared
range `[1, 1)` is empty. -/
def c5st2 : BlockList :=
  ⟨4, 256,
   [⟨4, 4, 0, 256, ⟨[false, true, true, true]⟩⟩,
    ⟨4, 4, 256, 256, ⟨[true, true, true, true]⟩⟩,
    ⟨2, 4, 512, 256, ⟨[true, true, false, false]⟩⟩]⟩

/-- A one-block list used by the C9 witness. -/
def c9st : BlockList :=
  ⟨4, 256, [⟨2, 4, 0, 256, ⟨[true, true, false, false]⟩⟩]⟩

/-! ## List helper lemmas -/

theorem getD_drop (l : List Bool) :
    ∀ (n i : Nat) (d : Bool), (l.drop n).getD i d = l.getD (n + i) d := by
  induction l with
  | nil => intro n i d; simp [List.getD]
  | cons a t ih =>
    intro n i d
    cases n with
    | zero => simp
    | succ n =>
      rw [List.drop_succ_cons, ih n i d, Nat.succ_add, List.getD_cons_succ]

theorem getD_take (l : List Bool) :
    ∀ (n i : Nat) (d : Bool), i < n → (l.take n).getD i d = l.getD i d := by
  induction l with
  | nil => intro n i d _; simp [List.getD]
  | cons a t ih =>
    intro n i d hi
    cases n with
    | zero => omega
    | succ n =>
      cases i with
      | zero => simp [List.getD]
      | succ i =>
        have := ih n i d (by omega)
        simpa [List.getD] using this

theorem getD_set (l : List Bool) :
    ∀ (j i : Nat) (v d : Bool),
      (l.set j v).getD i d = if i = j ∧ j < l.length then v else l.getD i d := by
  induction l with
  | nil => intro j i v d; simp [List.getD]
  | cons a t ih =>
    intro j i v d
    cases j with
    | zero =>
      cases i with
      | zero => simp [List.getD]
      | succ i => simp [List.getD]
    | succ j =>
      cases i with
      | zero => simp [List.getD]
      | succ i =>
        have := ih j i v d
        simp only [List.set_cons_succ, List.getD_cons_succ, List.length_cons]
        rw [this]
        by_cases h1 : i = j ∧ j < t.length
        · rw [if_pos h1, if_pos ⟨by omega, by omega⟩]
        · rw [if_neg h1, if_neg (by omega)]

theorem all_iff_getD (p : Bool → Bool) (l : List Bool) :
    l.all p = true ↔ ∀ i, i < l.length → p (l.getD i false) = true := by
  induction l with
  | nil => simp
  | cons a t ih =>
    simp only [List.all_cons, Bool.and_eq_true, ih, List.length_cons]
    constructor
    · rintro ⟨ha, ht⟩ i hi
      cases i with
      | zero => simpa [List.getD] using ha
      | succ i => simpa [List.getD] using ht i (by omega)
    · intro h
      refine ⟨by simpa [List.getD] using h 0 (by omega), fun i hi => ?_⟩
      simpa [List.getD] using h (i + 1) (by omega)

theorem takeWhile_all (p : Bool → Bool) (l : List Bool) :
    ∀ i, i < (l.takeWhile p).length → p (l.getD i false) = true := by
  induction l with
  | nil => simp
  | cons a t ih =>
    intro i hi
    by_cases ha : p a
    · rw [List.takeWhile_cons_of_pos ha] at hi
      cases i with
      | zero => simpa [List.getD] using ha
      | succ i =>
        simpa [List.getD] using ih i (by simpa using hi)
    · rw [List.takeWhile_cons_of_neg ha] at hi
      simp at hi

theorem takeWhile_stop (p : Bool → Bool) (l : List Bool)
    (h : (l.takeWhile p).length < l.length) :
    p (l.getD (l.takeWhile p).length false) = false := by
  induction l with
  | nil => simp at h
  | cons a t ih =>
    by_cases ha : p a
    · rw [List.takeWhile_cons_of_pos ha] at h ⊢
      have := ih (by simpa using h)
      simpa [List.getD] using this
    · rw [List.takeWhile_cons_of_neg ha]
      simpa [List.getD] using eq_false_of_ne_true ha

theorem takeWhile_length_le (p : Bool → Bool) (l : List Bool) :
    (l.takeWhile p).length ≤ l.length :=
  List.Sublist.length_le (List.takeWhile_sublist p)

theorem takeWhile_length_pos (p : Bool → Bool) (l : List Bool)
    (hne : l ≠ []) (hp : p (l.getD 0 false) = true) :
    1 ≤ (l.takeWhile p).length := by
  cases l with
  | nil => exact absurd rfl hne
  | cons a t =>
    simp only [List.getD_cons_zero] at hp
    rw [List.takeWhile_cons_of_pos hp]
    simp

theorem setRangeLoop_zero (bits : List Bool) (s : Nat) (v : Bool) :
    setRangeLoop bits s 0 v = bits := rfl

theorem setRangeLoop_succ (bits : List Bool) (s n : Nat) (v : Bool) :
    setRangeLoop bits s (n + 1) v = setRangeLoop (bits.set s v) (s + 1) n v := by
  simp [setRangeLoop, List.range'_succ]

theorem setRangeLoop_length (v : Bool) :
    ∀ (n s : Nat) (bits : List Bool),
      (setRangeLoop bits s n v).length = bits.length := by
  intro n
  induction n with
  | zero => intro s bits; rfl
  | succ n ih =>
    intro s bits
    rw [setRangeLoop_succ, ih, List.length_set]

theorem setRangeLoop_getD (v : Bool) :
    ∀ (n s : Nat) (bits : List Bool) (i : Nat),
      (setRangeLoop bits s n v).getD i false =
        if s ≤ i ∧ i < s + n ∧ i < bits.length then v
        else bits.getD i false := by
  intro n
  induction n with
  | zero =>
    intro s bits i
    rw [setRangeLoop_zero, if_neg (by omega)]
  | succ n ih =>
    intro s bits i
    rw [setRangeLoop_succ, ih, List.length_set, getD_set]
    by_cases h1 : s + 1 ≤ i ∧ i < s + 1 + n ∧ i < bits.length
    · rw [if_pos h1, if_pos (by omega)]
    · rw [if_neg h1]
      by_cases h2 : i = s ∧ s < bits.length
      · rw [if_pos h2, if_pos (by omega)]
      · rw [if_neg h2, if_neg (by omega)]

theorem seg_all (p : Bool → Bool) (bits : List Bool) (s e : Nat)
    (hel : e ≤ bits.length) :
    ((bits.drop s).take (e - s)).all p = true ↔
      ∀ i, s ≤ i → i < e → p (bits.getD i false) = true := by
  rw [all_iff_getD]
  constructor
  · intro h i hsi hie
    have hk : i - s < ((bits.drop s).take (e - s)).length := by
      rw [List.length_take, List.length_drop]
      omega
    have := h (i - s) hk
    rwa [getD_take _ _ _ _ (by omega), getD_drop,
      Nat.add_sub_cancel' hsi] at this
  · intro h k hk
    rw [List.length_take, List.length_drop] at hk
    rw [getD_take _ _ _ _ (by omega), getD_drop]
    exact h (s + k) (by omega) (by omega)

/-! ## LineMap characterization lemmas -/

theorem find_next_used_spec (m : LineMap) (line : Nat) :
    line ≤ m.find_next_used line ∧
    (line ≤ m.len → m.find_next_used line ≤ m.len) ∧
    (∀ i, line ≤ i → i < m.find_next_used line → m.is_used i = false) ∧
    (m.find_next_used line < m.len →
      m.is_used (m.find_next_used line) = true) := by
  refine ⟨Nat.le_add_right _ _, ?_, ?_, ?_⟩
  · intro hl
    unfold LineMap.len at hl ⊢
    have := takeWhile_length_le (fun x => !x) (m.bits.drop line)
    rw [List.length_drop] at this
    unfold LineMap.find_next_used
    omega
  · intro i hli hi
    unfold LineMap.find_next_used at hi
    have := takeWhile_all (fun x => !x) (m.bits.drop line) (i - line) (by omega)
    rw [getD_drop, Nat.add_sub_cancel' hli] at this
    unfold LineMap.is_used
    simpa using this
  · intro hlt
    unfold LineMap.find_next_used LineMap.len at hlt
    have hlen : ((m.bits.drop line).takeWhile (fun x => !x)).length <
        (m.bits.drop line).length := by
      rw [List.length_drop]; omega
    have := takeWhile_stop (fun x => !x) (m.bits.drop line) hlen
    rw [getD_drop] at this
    unfold LineMap.is_used LineMap.find_next_used
    simpa using this

theorem find_next_unused_spec (m : LineMap) (line : Nat) :
    line ≤ m.find_next_unused line ∧
    (line ≤ m.len → m.find_next_unused line ≤ m.len) ∧
    (∀ i, line ≤ i → i < m.find_next_unused line → m.is_used i = true) ∧
    (m.find_next_unused line < m.len →
      m.is_used (m.find_next_unused line) = false) := by
  refine ⟨Nat.le_add_right _ _, ?_, ?_, ?_⟩
  · intro hl
    unfold LineMap.len at hl ⊢
    have := takeWhile_length_le (fun x => x) (m.bits.drop line)
    rw [List.length_drop] at this
    unfold LineMap.find_next_unused
    omega
  · intro i hli hi
    unfold LineMap.find_next_unused at hi
    have := takeWhile_all (fun x => x) (m.bits.drop line) (i - line) (by omega)
    rw [getD_drop, Nat.add_sub_cancel' hli] at this
    unfold LineMap.is_used
    simpa using this
  · intro hlt
    unfold LineMap.find_next_unused LineMap.len at hlt
    have hlen : ((m.bits.drop line).takeWhile (fun x => x)).length <
        (m.bits.drop line).length := by
      rw [List.length_drop]; omega
    have := takeWhile_stop (fun x => x) (m.bits.drop line) hlen
    rw [getD_drop] at this
    unfold LineMap.is_used LineMap.find_next_unused
    simpa using this

theorem find_next_used_gt (m : LineMap) (line : Nat)
    (hl : line < m.len) (hu : m.is_used line = false) :
    line < m.find_next_used line := by
  unfold LineMap.find_next_used
  have hne : m.bits.drop line ≠ [] := by
    intro h
    have := congrArg List.length h
    rw [List.length_drop] at this
    unfold LineMap.len at hl
    simp at this
    omega
  have h0 : (fun x => !x) ((m.bits.drop line).getD 0 false) = true := by
    show (!((m.bits.drop line).getD 0 false)) = true
    rw [getD_drop, Nat.add_zero]
    unfold LineMap.is_used at hu
    rw [hu]
    rfl
  have := takeWhile_length_pos (fun x => !x) (m.bits.drop line) hne h0
  omega

theorem entire_block_used_iff (m : LineMap) :
    m.entire_block_used = true ↔ ∀ i, i < m.len → m.is_used i = true := by
  unfold LineMap.entire_block_used LineMap.len LineMap.is_used
  exact all_iff_getD (fun x => x) m.bits

theorem set_range_used_ok (m : LineMap) (s e : Nat)
    (hse : s ≤ e) (hel : e ≤ m.len)
    (hun : ∀ i, s ≤ i → i < e → m.is_used i = false) :
    ∃ m', m.set_range_used s e = .ok m' ∧ m'.len = m.len ∧
      ∀ i, m'.is_used i = if s ≤ i ∧ i < e then true else m.is_used i := by
  have hall : ((m.bits.drop s).take (e - s)).all (fun x => !x) = true := by
    rw [seg_all _ _ _ _ hel]
    intro i hsi hie
    have := hun i hsi hie
    unfold LineMap.is_used at this
    show (!(m.bits.getD i false)) = true
    rw [this]
    rfl
  refine ⟨⟨setRangeLoop m.bits s (e - s) true⟩, ?_, ?_, ?_⟩
  · unfold LineMap.set_range_used
    rw [if_neg (by omega), if_neg (by simp [hall]), if_neg (by
      unfold LineMap.len at hel
      omega)]
  · unfold LineMap.len
    exact setRangeLoop_length true (e - s) s m.bits
  · intro i
    unfold LineMap.is_used
    rw [setRangeLoop_getD]
    unfold LineMap.len at hel
    by_cases h1 : s ≤ i ∧ i < e
    · rw [if_pos (by omega), if_pos h1]
    · rw [if_neg (by omega), if_neg h1]

theorem set_range_unused_ok (m : LineMap) (s e : Nat)
    (hse : s ≤ e) (hel : e ≤ m.len)
    (hus : ∀ i, s ≤ i → i < e → m.is_used i = true) :
    ∃ m', m.set_range_unused s e = .ok m' ∧ m'.len = m.len ∧
      ∀ i, m'.is_used i = if s ≤ i ∧ i < e then false else m.is_used i := by
  have hall : ((m.bits.drop s).take (e - s)).all (fun x => x) = true := by
    rw [seg_all _ _ _ _ hel]
    intro i hsi hie
    exact hus i hsi hie
  refine ⟨⟨setRangeLoop m.bits s (e - s) false⟩, ?_, ?_, ?_⟩
  · unfold LineMap.set_range_unused
    rw [if_neg (by omega), if_neg (by simp [hall]), if_neg (by
      unfold LineMap.len at hel
      omega)]
  · unfold LineMap.len
    exact setRangeLoop_length false (e - s) s m.bits
  · intro i
    unfold LineMap.is_used
    rw [setRangeLoop_getD]
    unfold LineMap.len at hel
    by_cases h1 : s ≤ i ∧ i < e
    · rw [if_pos (by omega), if_pos h1]
    · rw [if_neg (by omega), if_neg h1]

theorem set_range_used_assert (m : LineMap) (s e : Nat)
    (hse : s ≤ e) (hel : e ≤ m.len)
    (h : ∃ i, s ≤ i ∧ i < e ∧ m.is_used i = true) :
    m.set_range_used s e = .error .assertFailed := by
  obtain ⟨i, hsi, hie, hi⟩ := h
  unfold LineMap.is_used at hi
  have hall : ((m.bits.drop s).take (e - s)).all (fun x => !x) = false := by
    cases hcase : ((m.bits.drop s).take (e - s)).all (fun x => !x) with
    | false => rfl
    | true =>
      have h2 : (!(m.bits.getD i false)) = true :=
        (seg_all (fun x => !x) m.bits s e hel).mp hcase i hsi hie
      rw [hi] at h2
      exact Bool.noConfusion h2
  unfold LineMap.set_range_used
  rw [if_neg (by omega), if_pos hall]

theorem set_range_unused_assert (m : LineMap) (s e : Nat)
    (hse : s ≤ e) (hel : e ≤ m.len)
    (h : ∃ i, s ≤ i ∧ i < e ∧ m.is_used i = false) :
    m.set_range_unused s e = .error .assertFailed := by
  obtain ⟨i, hsi, hie, hi⟩ := h
  unfold LineMap.is_used at hi
  have hall : ((m.bits.drop s).take (e - s)).all (fun x => x) = false := by
    cases hcase : ((m.bits.drop s).take (e - s)).all (fun x => x) with
    | false => rfl
    | true =>
      have h2 : m.bits.getD i false = true :=
        (seg_all (fun x => x) m.bits s e hel).mp hcase i hsi hie
      rw [hi] at h2
      exact Bool.noConfusion h2
  unfold LineMap.set_range_unused
  rw [if_neg (by omega), if_pos hall]

/-! ## Claim theorems -/

/-- C1: the claim says `inner_dealloc(ptr)` marks exactly the line range
`[offset_of(ptr), offset_of(ptr) + ptr.size)` unused.  Evaluating the code
at a pointer of offset 1 and size 1 previously issued by the block shows
line 1 stays used — the call passes `ptr.size` where `set_range_unused`
expects an end index, so the cleared range is `[1, 1)`, which is empty —
while the cursor and limit are indeed unchanged. -/
theorem c1_dealloc_eval :
    (BumpBlock.new 4 256 1000).inner_alloc 1 = .ok (some ⟨1000, 1⟩, c1b1) ∧
    c1b1.inner_alloc 1 = .ok (some ⟨1001, 1⟩, c1b2) ∧
    c1b2.inner_dealloc ⟨1001, 1⟩ = .ok c1b3 ∧
    c1b3.used_lines.is_used 1 = true ∧
    c1b3.cursor = c1b2.cursor ∧ c1b3.limit = c1b2.limit := by decide

/-- C2: the claim says allocating `n` lines from a fresh or existing block
and deallocating the returned pointer leaves the allocated range reading
unused.  For the second allocation of an existing block (offset 2, size 2)
the deallocation clears the empty range `[2, 2)` and lines 2 and 3 keep
reading used. -/
theorem c2_roundtrip_eval :
    (BumpBlock.new 4 256 2000).inner_alloc 2 = .ok (some ⟨2000, 2⟩, c2b1) ∧
    c2b1.inner_alloc 2 = .ok (some ⟨2002, 2⟩, c2b2) ∧
    c2b2.inner_dealloc ⟨2002, 2⟩ = .ok c2b3 ∧
    c2b3.used_lines.is_used 2 = true ∧
    c2b3.used_lines.is_used 3 = true := by decide

/-- C3: the claim says every public operation exits with
`cursor <= limit <= LINES_PER_BLOCK` and `[cursor, limit)` empty or
unused.  This reachable sequence of `new`, `inner_alloc` and
`inner_dealloc` on previously issued pointers ends an `inner_alloc` with
`cursor = 5 > limit = 3`: deallocating a pointer frees the line at the
current `limit`, after which a large allocation runs past it. -/
theorem c3_invariant_violation :
    (BumpBlock.new 8 512 0).inner_alloc 3 = .ok (some ⟨0, 3⟩, c3s1) ∧
    c3s1.inner_alloc 5 = .ok (some ⟨3, 5⟩, c3s2) ∧
    c3s2.inner_dealloc ⟨0, 3⟩ = .ok c3s3 ∧
    c3s3.inner_alloc 1 = .ok (some ⟨0, 1⟩, c3s4) ∧
    c3s4.inner_dealloc ⟨3, 5⟩ = .ok c3s5 ∧
    c3s5.inner_alloc 4 = .ok (some ⟨1, 4⟩, c3s6) ∧
    ¬ (c3s6.cursor ≤ c3s6.limit) := by decide

/-- C5: the claim's scenario (policy holding 4 minimal allocations per
block) does produce exactly 3 blocks after 10 one-line allocations, but
deallocating all 10 pointers cannot complete: deallocating the pointer at
offset 2 and size 1 makes `inner_dealloc` call `set_range_unused(2, 1)`,
whose debug-mode `end - start` subtraction underflows (panics), so the
freed space is never returned and the claimed re-allocation round is
unreachable. -/
theorem c5_blocklist_eval :
    allocRepeat 10 (BlockList.mk_empty 4 256) = .ok (c5ptrs, c5st) ∧
    c5st.blocks.length = 3 ∧
    c5st.dealloc ⟨0, 1⟩ = .ok c5st1 ∧
    c5st1.dealloc ⟨1, 1⟩ = .ok c5st2 ∧
    c5st2.dealloc ⟨2, 1⟩ = .error .arithOverflow := by decide

/-- C7: for `line <= len`, `find_next_used(line)` returns the smallest
index at or after `line` whose bit is set, or `len` when no used line
exists there, and `find_next_unused` is the symmetric scan; on the
128-line map with lines 0, 10, ..., 120 used, `find_next_unused 0 = 1`
and `find_next_used 1 = 10`, and with 126 and 127 also used,
`find_next_unused 126 = 128`. -/
theorem c7_find_next_spec :
    (∀ (m : LineMap) (line : Nat), line ≤ m.len →
      (line ≤ m.find_next_used line ∧ m.find_next_used line ≤ m.len ∧
        (∀ i, line ≤ i → i < m.find_next_used line → m.is_used i = false) ∧
        (m.find_next_used line < m.len →
          m.is_used (m.find_next_used line) = true)) ∧
      (line ≤ m.find_next_unused line ∧ m.find_next_unused line ≤ m.len ∧
        (∀ i, line ≤ i → i < m.find_next_unused line → m.is_used i = true) ∧
        (m.find_next_unused line < m.len →
          m.is_used (m.find_next_unused line) = false))) ∧
    exampleMap.find_next_unused 0 = 1 ∧
    exampleMap.find_next_used 1 = 10 ∧
    exampleMap2.find_next_unused 126 = 128 := by
  refine ⟨?_, by decide, by decide, by decide⟩
  intro m line hl
  obtain ⟨a1, a2, a3, a4⟩ := find_next_used_spec m line
  obtain ⟨b1, b2, b3, b4⟩ := find_next_unused_spec m line
  exact ⟨⟨a1, a2 hl, a3, a4⟩, b1, b2 hl, b3, b4⟩

/-- Witness for C7 at a concrete input: on the example map the index
returned by `find_next_used 1` carries a set bit. -/
theorem c7_witness :
    exampleMap.is_used (exampleMap.find_next_used 1) = true :=
  (c7_find_next_spec.1 exampleMap 1 (by decide)).1.2.2.2 (by decide)

/-- C8: for an in-range interval with `start <= end`, `set_range_used`
asserts exactly when some bit of the range is already used and otherwise
sets exactly the bits of the range; `set_range_unused` is the mirror. -/
theorem c8_set_range_spec (m : LineMap) (s e : Nat)
    (hse : s ≤ e) (hel : e ≤ m.len) :
    (m.set_range_used s e = .error .assertFailed ↔
      ∃ i, s ≤ i ∧ i < e ∧ m.is_used i = true) ∧
    ((∀ i, s ≤ i → i < e → m.is_used i = false) →
      ∃ m', m.set_range_used s e = .ok m' ∧ m'.len = m.len ∧
        ∀ i, m'.is_used i = if s ≤ i ∧ i < e then true else m.is_used i) ∧
    (m.set_range_unused s e = .error .assertFailed ↔
      ∃ i, s ≤ i ∧ i < e ∧ m.is_used i = false) ∧
    ((∀ i, s ≤ i → i < e → m.is_used i = true) →
      ∃ m', m.set_range_unused s e = .ok m' ∧ m'.len = m.len ∧
        ∀ i, m'.is_used i = if s ≤ i ∧ i < e then false else m.is_used i) := by
  refine ⟨⟨?_, set_range_used_assert m s e hse hel⟩,
    set_range_used_ok m s e hse hel,
    ⟨?_, set_range_unused_assert m s e hse hel⟩,
    set_range_unused_ok m s e hse hel⟩
  · intro herr
    by_cases hex : ∃ i, s ≤ i ∧ i < e ∧ m.is_used i = true
    · exact hex
    · exfalso
      have hun : ∀ i, s ≤ i → i < e → m.is_used i = false := by
        intro i h1 h2
        cases hcase : m.is_used i with
        | false => rfl
        | true => exact absurd ⟨i, h1, h2, hcase⟩ hex
      obtain ⟨m', hok, -, -⟩ := set_range_used_ok m s e hse hel hun
      rw [hok] at herr
      exact Except.noConfusion herr
  · intro herr
    by_cases hex : ∃ i, s ≤ i ∧ i < e ∧ m.is_used i = false
    · exact hex
    · exfalso
      have hus : ∀ i, s ≤ i → i < e → m.is_used i = true := by
        intro i h1 h2
        cases hcase : m.is_used i with
        | true => rfl
        | false => exact absurd ⟨i, h1, h2, hcase⟩ hex
      obtain ⟨m', hok, -, -⟩ := set_range_unused_ok m s e hse hel hus
      rw [hok] at herr
      exact Except.noConfusion herr

/-- Witness for C8 at a concrete input: marking `[0, 3)` used on a map
whose line 1 is already used fails the assert. -/
theorem c8_witness :
    (⟨[false, true, false]⟩ : LineMap).set_range_used 0 3 =
      .error .assertFailed :=
  (c8_set_range_spec ⟨[false, true, false]⟩ 0 3 (by decide) (by decide)).1.mpr
    ⟨1, by decide, by decide, by decide⟩

theorem is_power_of_two_iff (n : Nat) :
    is_power_of_two n = true ↔ ∃ k, n = 2 ^ k := by
  unfold is_power_of_two
  simp only [Bool.and_eq_true, bne_iff_ne, beq_iff_eq]
  constructor
  · intro h
    exact ⟨Nat.log2 n, h.2⟩
  · rintro ⟨k, rfl⟩
    refine ⟨by positivity, ?_⟩
    rw [Nat.log2_eq_log_two, Nat.log_pow (by norm_num)]

/-- C6: `Block::new(size)` fails with `BadAlignment` exactly when `size`
is not a power of two, independently of what the underlying allocator
would answer (the check precedes the allocation attempt); for power-of-two
sizes it returns the allocated region, or `OutOfMemory` when the
underlying call returns null.  In particular 4096, 32768 and
`16 * 1024 * 1024` succeed and 999 fails with `BadAlignment`. -/
theorem c6_block_new_power_of_two :
    (∀ (sysAlloc : Nat → Nat) (size : Nat),
      (Block.new sysAlloc size = .error .BadAlignment ↔ ¬ ∃ k, size = 2 ^ k) ∧
      ((∃ k, size = 2 ^ k) → sysAlloc size ≠ 0 →
        Block.new sysAlloc size = .ok ⟨sysAlloc size, size⟩) ∧
      ((∃ k, size = 2 ^ k) → sysAlloc size = 0 →
        Block.new sysAlloc size = .error .OutOfMemory)) ∧
    Block.new oneAlloc 4096 = .ok ⟨1, 4096⟩ ∧
    Block.new oneAlloc 32768 = .ok ⟨1, 32768⟩ ∧
    Block.new oneAlloc (16 * 1024 * 1024) = .ok ⟨1, 16 * 1024 * 1024⟩ ∧
    Block.new oneAlloc 999 = .error .BadAlignment := by
  have hmain : ∀ (f : Nat → Nat) (size : Nat),
      (Block.new f size = .error .BadAlignment ↔ ¬ ∃ k, size = 2 ^ k) ∧
      ((∃ k, size = 2 ^ k) → f size ≠ 0 →
        Block.new f size = .ok ⟨f size, size⟩) ∧
      ((∃ k, size = 2 ^ k) → f size = 0 →
        Block.new f size = .error .OutOfMemory) := by
    intro f size
    by_cases hp : is_power_of_two size = true
    · have hpow : ∃ k, size = 2 ^ k := (is_power_of_two_iff size).mp hp
      refine ⟨⟨?_, fun hnp => absurd hpow hnp⟩, ?_, ?_⟩
      · intro herr
        unfold Block.new alloc_block at herr
        rw [if_neg (by simp [hp])] at herr
        by_cases hz : f size ≠ 0
        · rw [if_pos hz] at herr
          exact Except.noConfusion herr
        · rw [if_neg hz] at herr
          simp at herr
      · intro _ hnz
        unfold Block.new alloc_block
        rw [if_neg (by simp [hp]), if_pos hnz]
      · intro _ hz
        unfold Block.new alloc_block
        rw [if_neg (by simp [hp]), if_neg (by simp [hz])]
    · have hnpow : ¬ ∃ k, size = 2 ^ k :=
        fun h => hp ((is_power_of_two_iff size).mpr h)
      refine ⟨⟨fun _ => hnpow, ?_⟩,
        fun h => absurd h hnpow, fun h => absurd h hnpow⟩
      intro _
      unfold Block.new alloc_block
      rw [if_pos hp]
  have h999 : ¬ ∃ k, (999 : Nat) = 2 ^ k := by
    rintro ⟨k, hk⟩
    rcases Nat.lt_or_ge k 10 with h | h
    · interval_cases k <;> omega
    · have h1 : (1024 : Nat) ≤ 2 ^ k := by
        calc (1024 : Nat) = 2 ^ 10 := by norm_num
        _ ≤ 2 ^ k := Nat.pow_le_pow_right (by norm_num) h
      omega
  exact ⟨hmain,
    (hmain oneAlloc 4096).2.1 ⟨12, by norm_num⟩ (by decide),
    (hmain oneAlloc 32768).2.1 ⟨15, by norm_num⟩ (by decide),
    (hmain oneAlloc (16 * 1024 * 1024)).2.1 ⟨24, by norm_num⟩ (by decide),
    (hmain oneAlloc 999).1.mpr h999⟩

/-- Witness for C6 at concrete inputs: a non-null allocator answer gives
an owned region, a null answer gives `OutOfMemory`, both at size 4096. -/
theorem c6_witness :
    Block.new oneAlloc 4096 = .ok ⟨1, 4096⟩ ∧
    Block.new (fun _ => 0) 4096 = .error .OutOfMemory :=
  ⟨(c6_block_new_power_of_two.1 oneAlloc 4096).2.1 ⟨12, by norm_num⟩
      (by decide),
    (c6_block_new_power_of_two.1 (fun _ => 0) 4096).2.2 ⟨12, by norm_num⟩ rfl⟩

/-- C10: from any state with `cursor < limit`, `inner_alloc 0` succeeds
with a size-0 pointer at the block start plus the cursor and leaves the
cursor, the limit and the line map unchanged. -/
theorem c10_zero_alloc (b : BumpBlock) (h : b.cursor < b.limit) :
    b.inner_alloc 0 = .ok (some ⟨b.memBase + b.cursor, 0⟩, b) := by
  obtain ⟨c, l, base, sz, bits⟩ := b
  obtain ⟨bl⟩ := bits
  simp only at h
  unfold BumpBlock.inner_alloc
  rw [if_neg (by simp; omega)]
  unfold BumpBlock.inner_alloc_core
  rw [if_neg (by simp; omega)]
  simp only
  rw [if_pos (Nat.zero_le _)]
  unfold LineMap.set_range_used
  rw [if_neg (by omega)]
  rw [if_neg (by simp), if_neg (by omega)]
  simp [Nat.add_zero, Nat.sub_self, setRangeLoop_zero]

/-- Witness for C10 at a concrete input: a fresh 4-line block. -/
theorem c10_witness :
    (BumpBlock.new 4 256 7).inner_alloc 0 =
      .ok (some ⟨(BumpBlock.new 4 256 7).memBase + (BumpBlock.new 4 256 7).cursor, 0⟩,
        BumpBlock.new 4 256 7) :=
  c10_zero_alloc (BumpBlock.new 4 256 7) (by decide)

theorem deallocLoop_none (p : ManagedPtr) :
    ∀ blocks : List BumpBlock, (∀ b ∈ blocks, b.contains p = false) →
      deallocLoop p blocks = .error .panicked := by
  intro blocks
  induction blocks with
  | nil => intro _; rfl
  | cons b rest ih =>
    intro h
    unfold deallocLoop
    rw [if_neg (by simp [h b (List.mem_cons_self b rest)])]
    rw [ih (fun x hx => h x (List.mem_cons_of_mem b hx))]

theorem deallocLoop_frame (p : ManagedPtr) :
    ∀ (blocks blocks' : List BumpBlock),
      deallocLoop p blocks = .ok blocks' →
      ∃ i, i < blocks.length ∧
        (blocks.getD i dfltBlock).contains p = true ∧
        blocks'.length = blocks.length ∧
        (∀ j, j ≠ i → blocks'.getD j dfltBlock = blocks.getD j dfltBlock) ∧
        (blocks'.getD i dfltBlock).cursor = (blocks.getD i dfltBlock).cursor ∧
        (blocks'.getD i dfltBlock).limit = (blocks.getD i dfltBlock).limit ∧
        (blocks'.getD i dfltBlock).memBase =
          (blocks.getD i dfltBlock).memBase ∧
        (blocks'.getD i dfltBlock).memSize =
          (blocks.getD i dfltBlock).memSize := by
  intro blocks
  induction blocks with
  | nil =>
    intro blocks' h
    exact Except.noConfusion h
  | cons b rest ih =>
    intro blocks' h
    unfold deallocLoop at h
    by_cases hc : b.contains p = true
    · rw [if_pos hc] at h
      cases hd : b.inner_dealloc p with
      | error e =>
        rw [hd] at h
        exact Except.noConfusion h
      | ok b' =>
        rw [hd] at h
        have hb : blocks' = b' :: rest := by
          injection h with h1
          exact h1.symm
        subst hb
        have hpres : b'.cursor = b.cursor ∧ b'.limit = b.limit ∧
            b'.memBase = b.memBase ∧ b'.memSize = b.memSize := by
          unfold BumpBlock.inner_dealloc at hd
          cases hsr : b.used_lines.set_range_unused
              (p.inner - b.memBase) p.size with
          | error e =>
            rw [hsr] at hd
            exact Except.noConfusion hd
          | ok m =>
            rw [hsr] at hd
            injection hd with h2
            rw [← h2]
            exact ⟨rfl, rfl, rfl, rfl⟩
        refine ⟨0, by simp, by simpa using hc, by simp, ?_, ?_, ?_, ?_, ?_⟩
        · intro j hj
          cases j with
          | zero => exact absurd rfl hj
          | succ j => simp
        · simpa using hpres.1
        · simpa using hpres.2.1
        · simpa using hpres.2.2.1
        · simpa using hpres.2.2.2
    · rw [if_neg hc] at h
      cases hr : deallocLoop p rest with
      | error e =>
        rw [hr] at h
        exact Except.noConfusion h
      | ok rest' =>
        rw [hr] at h
        have hb : blocks' = b :: rest' := by
          injection h with h1
          exact h1.symm
        subst hb
        obtain ⟨i, hi1, hi2, hi3, hi4, hi5, hi6, hi7, hi8⟩ := ih rest' hr
        refine ⟨i + 1, by simp; omega, by simpa using hi2, by simp [hi3],
          ?_, ?_, ?_, ?_, ?_⟩
        · intro j hj
          cases j with
          | zero => simp
          | succ j => simpa using hi4 j (by omega)
        · simpa using hi5
        · simpa using hi6
        · simpa using hi7
        · simpa using hi8

/-- C9: `BlockList::dealloc(ptr)` on a pointer contained in a block only
mutates that block's line map — the block's cursor, limit and memory
region, and every other block, are unchanged — and panics when no block
of the list contains the pointer. -/
theorem c9_dealloc_frame (st : BlockList) (p : ManagedPtr) :
    ((∀ b ∈ st.blocks, b.contains p = false) →
      st.dealloc p = .error .panicked) ∧
    (∀ st', st.dealloc p = .ok st' →
      st'.linesPerBlock = st.linesPerBlock ∧
      st'.blockSizeBytes = st.blockSizeBytes ∧
      ∃ i, i < st.blocks.length ∧
        (st.blocks.getD i dfltBlock).contains p = true ∧
        st'.blocks.length = st.blocks.length ∧
        (∀ j, j ≠ i →
          st'.blocks.getD j dfltBlock = st.blocks.getD j dfltBlock) ∧
        (st'.blocks.getD i dfltBlock).cursor =
          (st.blocks.getD i dfltBlock).cursor ∧
        (st'.blocks.getD i dfltBlock).limit =
          (st.blocks.getD i dfltBlock).limit ∧
        (st'.blocks.getD i dfltBlock).memBase =
          (st.blocks.getD i dfltBlock).memBase ∧
        (st'.blocks.getD i dfltBlock).memSize =
          (st.blocks.getD i dfltBlock).memSize) := by
  constructor
  · intro h
    unfold BlockList.dealloc
    rw [deallocLoop_none p st.blocks h]
  · intro st' h
    unfold BlockList.dealloc at h
    cases hl : deallocLoop p st.blocks with
    | error e =>
      rw [hl] at h
      exact Except.noConfusion h
    | ok blocks' =>
      rw [hl] at h
      have hst : st' = { st with blocks := blocks' } := by
        injection h with h1
        exact h1.symm
      subst hst
      exact ⟨rfl, rfl, deallocLoop_frame p st.blocks blocks' hl⟩

/-- Witness for C9 at a concrete input: a pointer outside the single
block of `c9st` makes `dealloc` hit the fatal ownership panic. -/
theorem c9_witness : c9st.dealloc ⟨9999, 1⟩ = .error .panicked :=
  (c9_dealloc_frame c9st ⟨9999, 1⟩).1 (by decide)

theorem find_first_hole_some (b : BumpBlock)
    (hnf : b.used_lines.entire_block_used = false) :
    b.find_first_hole = .ok (some (b.used_lines.find_next_unused 0,
      b.used_lines.find_next_used (b.used_lines.find_next_unused 0))) ∧
    b.used_lines.find_next_unused 0 < b.used_lines.len := by
  have hlt : b.used_lines.find_next_unused 0 < b.used_lines.len := by
    obtain ⟨u1, u2, u3, u4⟩ := find_next_unused_spec b.used_lines 0
    have hle : b.used_lines.find_next_unused 0 ≤ b.used_lines.len :=
      u2 (Nat.zero_le _)
    rcases Nat.lt_or_ge (b.used_lines.find_next_unused 0)
        b.used_lines.len with h | h
    · exact h
    · exfalso
      have hall : b.used_lines.entire_block_used = true := by
        rw [entire_block_used_iff]
        intro i hi
        exact u3 i (Nat.zero_le i) (by omega)
      rw [hall] at hnf
      exact Bool.noConfusion hnf
  refine ⟨?_, hlt⟩
  unfold BumpBlock.find_first_hole
  rw [if_neg (by simp [hnf]), if_neg (by omega)]

theorem inner_alloc_core_spec (b : BumpBlock) (bytes : Nat)
    (hcl : b.cursor < b.limit) (hll : b.limit ≤ b.used_lines.len) :
    (b.used_lines.find_next_used b.cursor - b.cursor < bytes →
      b.inner_alloc_core bytes = .ok (none, b)) ∧
    (bytes ≤ b.used_lines.find_next_used b.cursor - b.cursor →
      ∃ m', b.inner_alloc_core bytes = .ok
          (some ⟨b.memBase + b.cursor, bytes⟩,
            { b with cursor := b.cursor + bytes, used_lines := m' }) ∧
        m'.len = b.used_lines.len ∧
        ∀ i, m'.is_used i =
          if b.cursor ≤ i ∧ i < b.cursor + bytes then true
          else b.used_lines.is_used i) := by
  constructor
  · intro hspan
    unfold BumpBlock.inner_alloc_core
    rw [if_neg (by omega), if_neg (by omega)]
  · intro hspan
    obtain ⟨f1, f2, f3, f4⟩ := find_next_used_spec b.used_lines b.cursor
    have hnl : b.used_lines.find_next_used b.cursor ≤ b.used_lines.len :=
      f2 (by omega)
    have hbound : b.cursor + bytes ≤ b.used_lines.len := by omega
    have hun : ∀ i, b.cursor ≤ i → i < b.cursor + bytes →
        b.used_lines.is_used i = false := by
      intro i h1 h2
      exact f3 i h1 (by omega)
    obtain ⟨m', hok, hlen, hchar⟩ :=
      set_range_used_ok b.used_lines b.cursor (b.cursor + bytes)
        (by omega) hbound hun
    refine ⟨m', ?_, hlen, hchar⟩
    unfold BumpBlock.inner_alloc_core
    rw [if_neg (by omega), if_pos (by omega), hok]

/-- C4 counterexample: from the reachable state `c4b2` (a filled block
whose single allocation was deallocated, cursor and limit both exhausted
at 4), `inner_alloc 5` finds the hole, refreshes the cursor to 0 and the
limit to 4, and only then fails the span check: it returns `None` but the
state has changed, contradicting the claim's "returns None without
changing any state". -/
theorem c4_counterexample :
    (BumpBlock.new 4 256 0).inner_alloc 4 = .ok (some ⟨0, 4⟩, c4b1) ∧
    c4b1.inner_dealloc ⟨0, 4⟩ = .ok c4b2 ∧
    c4b2.inner_alloc 5 = .ok (none, c4b3) ∧
    c4b3 ≠ c4b2 := by decide

/-- C4 amended: `inner_alloc(request_size)` behaves as claimed — the
exhausted-hole search through `find_next_unused(0)` and `find_next_used`,
failure exactly when no unused line exists, the span check
`next_used - cursor >= request_size`, marking `[cursor, cursor +
request_size)` used, advancing the cursor and returning the pointer to
the range — except that when the request fails after a hole refresh
(entered with `cursor == limit`), the refreshed cursor and limit persist:
only the line map is guaranteed unchanged on failure. -/
theorem c4_inner_alloc_spec (b : BumpBlock) (bytes : Nat)
    (_hcl : b.cursor ≤ b.limit) (hll : b.limit ≤ b.used_lines.len) :
    (b.cursor = b.limit → b.used_lines.entire_block_used = true →
      b.inner_alloc bytes = .ok (none, b)) ∧
    (b.cursor = b.limit → b.used_lines.entire_block_used = false →
      (b.used_lines.find_next_used (b.used_lines.find_next_unused 0) -
          b.used_lines.find_next_unused 0 < bytes →
        b.inner_alloc bytes = .ok (none,
          { b with cursor := b.used_lines.find_next_unused 0,
                   limit := b.used_lines.find_next_used
                     (b.used_lines.find_next_unused 0) })) ∧
      (bytes ≤ b.used_lines.find_next_used (b.used_lines.find_next_unused 0) -
          b.used_lines.find_next_unused 0 →
        ∃ m', b.inner_alloc bytes = .ok
            (some ⟨b.memBase + b.used_lines.find_next_unused 0, bytes⟩,
              { b with cursor := b.used_lines.find_next_unused 0 + bytes,
                       limit := b.used_lines.find_next_used
                         (b.used_lines.find_next_unused 0),
                       used_lines := m' }) ∧
          m'.len = b.used_lines.len ∧
          ∀ i, m'.is_used i =
            if b.used_lines.find_next_unused 0 ≤ i ∧
                i < b.used_lines.find_next_unused 0 + bytes then true
            else b.used_lines.is_used i)) ∧
    (b.cursor < b.limit →
      (b.used_lines.find_next_used b.cursor - b.cursor < bytes →
        b.inner_alloc bytes = .ok (none, b)) ∧
      (bytes ≤ b.used_lines.find_next_used b.cursor - b.cursor →
        ∃ m', b.inner_alloc bytes = .ok
            (some ⟨b.memBase + b.cursor, bytes⟩,
              { b with cursor := b.cursor + bytes, used_lines := m' }) ∧
          m'.len = b.used_lines.len ∧
          ∀ i, m'.is_used i =
            if b.cursor ≤ i ∧ i < b.cursor + bytes then true
            else b.used_lines.is_used i)) := by
  refine ⟨?_, ?_, ?_⟩
  · intro heq hused
    unfold BumpBlock.inner_alloc
    rw [if_pos heq]
    unfold BumpBlock.find_first_hole
    rw [if_pos (by simp [hused])]
  · intro heq hnf
    obtain ⟨hfh, hlt⟩ := find_first_hole_some b hnf
    have hub : b.used_lines.is_used (b.used_lines.find_next_unused 0) = false :=
      (find_next_unused_spec b.used_lines 0).2.2.2 hlt
    have hbe : b.used_lines.find_next_unused 0 <
        b.used_lines.find_next_used (b.used_lines.find_next_unused 0) :=
      find_next_used_gt b.used_lines (b.used_lines.find_next_unused 0) hlt hub
    have hhe : b.used_lines.find_next_used (b.used_lines.find_next_unused 0) ≤
        b.used_lines.len :=
      (find_next_used_spec b.used_lines (b.used_lines.find_next_unused 0)).2.1
        (Nat.le_of_lt hlt)
    obtain ⟨cs1, cs2⟩ := inner_alloc_core_spec
      { b with cursor := b.used_lines.find_next_unused 0,
               limit := b.used_lines.find_next_used
                 (b.used_lines.find_next_unused 0) } bytes hbe hhe
    unfold BumpBlock.inner_alloc
    rw [if_pos heq, hfh]
    exact ⟨fun hspan => cs1 hspan, fun hspan => cs2 hspan⟩
  · intro hlt2
    unfold BumpBlock.inner_alloc
    rw [if_neg (by omega)]
    exact inner_alloc_core_spec b bytes hlt2 hll

/-- Witness for C4 at a concrete input: an oversized request on a fresh
4-line block fails with the state unchanged (no refresh happened since
`cursor < limit`). -/
theorem c4_witness :
    (BumpBlock.new 4 256 7).inner_alloc 9 = .ok (none, BumpBlock.new 4 256 7) :=
  ((c4_inner_alloc_spec (BumpBlock.new 4 256 7) 9 (by decide)
    (by decide)).2.2 (by decide)).1 (by decide)

end Rlox
